import Mathlib

/-!
Shallow embedding of the core of the clipcap repository (ClipCap-style
caption/VQA training scripts) and proofs about it.

Conventions of the embedding:
* Python/PyTorch floats are modelled as `ℝ` where transcendental functions
  occur (softmax, log, sqrt) and as `ℚ` where the program only adds, divides
  and compares (loss accounting, 0/1 masks).  Token ids are `ℤ` (the scripts
  use `-1` as a padding sentinel before zeroing), counts are `ℕ`.
* Tensors are nested lists; shape well-formedness is an explicit predicate.
* PyTorch runtime shape errors (e.g. a failing `reshape`) are modelled by
  `Option`: `none` is a raised error.
* The external GPT-2/tokenizer collaborators are opaque parameters, exactly
  as the spec scopes them out.
-/

namespace ClipCap

/-! ## Multi-task scheduler (train_MTL_IC_VQA.py, main, lines 550-591)

The epoch loop is `while True: batch_ic = next(it_ic); batch_vqa = next(it_vqa)`
with a `break` on `StopIteration` from either `next`.  `lockstep_pairs`
is that loop's sequence of executed paired steps. -/

def lockstep_pairs {α β : Type} : List α → List β → List (α × β)
  | a :: as, b :: bs => (a, b) :: lockstep_pairs as bs
  | _, _ => []

/-- End-of-epoch reporting of `main` (train_MTL_IC_VQA.py lines 580-591) for one
epoch starting from zeroed running sums: per paired step the two batch losses are
added to `train_loss_ic` / `train_loss_vqa`; afterwards the reported averages are
`train_loss_ic / len(train_dataloader_ic)` and — as written in the source —
`train_loss_vqa / len(train_dataloader_ic)` (line 591 divides the VQA sum by the
IC dataloader's length).  Inputs are the per-batch loss values of each
dataloader, so `ic_losses.length = len(train_dataloader_ic)`. -/
def mtl_epoch_report (ic_losses vqa_losses : List ℚ) : ℚ × ℚ :=
  let steps := lockstep_pairs ic_losses vqa_losses
  let train_loss_ic := (steps.map Prod.fst).sum
  let train_loss_vqa := (steps.map Prod.snd).sum
  (train_loss_ic / ic_losses.length, train_loss_vqa / ic_losses.length)

/-! ## Batched greedy decoding loop (train_IC.py generate_topk, lines 442-478;
multi_gpu_visdial_vqa.py generate_per_batch, lines 393-432)

Per sequence the loop keeps `seq_lengths` (a float counter starting at 1.0,
modelled as `ℕ`) and a boolean `is_stopped`.  At step `i` it appends the chosen
token to the batch token matrix, increments the counter of every not-yet-stopped
sequence, then marks stopped every sequence whose chosen token equals the stop
token or the eos token, and exits early once all sequences are stopped.
A sequence's chosen-token stream is abstracted as a function `ℕ → ℕ` of the
step index (the token `topk(1)` picks at that step). -/

structure DecSeq where
  len : ℕ
  stopped : Bool
deriving DecidableEq

/-- One step of the per-sequence bookkeeping, given the token chosen at this
step: `seq_lengths[~is_stopped] += 1` (the increment reads the stop flags from
before the update), then `is_stopped |= tok == stop_token or tok == eos`. -/
def dec_step (stop_tok eos_tok tok : ℕ) (s : DecSeq) : DecSeq :=
  { len := if s.stopped then s.len else s.len + 1
    stopped := s.stopped || tok == stop_tok || tok == eos_tok }

structure DecBatch where
  seqs : List ((ℕ → ℕ) × DecSeq)
  ntok : ℕ

/-- One iteration of the `for i in range(entry_length)` body: one token column
is appended to `tokens` (`ntok + 1`) and every sequence's counters advance on
its own chosen token. -/
def dec_batch_step (stop_tok eos_tok i : ℕ) (st : DecBatch) : DecBatch :=
  { seqs := st.seqs.map (fun p => (p.1, dec_step stop_tok eos_tok (p.1 i) p.2))
    ntok := st.ntok + 1 }

def all_stopped (st : DecBatch) : Bool :=
  st.seqs.all (fun p => p.2.stopped)

/-- The decoding loop: up to `fuel` remaining iterations starting at step
index `i`, with the `if is_stopped.all(): break` early exit after each step. -/
def dec_loop (stop_tok eos_tok : ℕ) : ℕ → ℕ → DecBatch → DecBatch
  | 0, _, st => st
  | fuel + 1, i, st =>
    if all_stopped (dec_batch_step stop_tok eos_tok i st) then
      dec_batch_step stop_tok eos_tok i st
    else dec_loop stop_tok eos_tok fuel (i + 1) (dec_batch_step stop_tok eos_tok i st)

/-- A full run of the loop: `seq_lengths = ones(batch)`, `is_stopped = zeros`,
no token columns yet, `entry_length` iterations from step 0. -/
def dec_run (stop_tok eos_tok entry_length : ℕ) (streams : List (ℕ → ℕ)) : DecBatch :=
  dec_loop stop_tok eos_tok entry_length 0
    { seqs := streams.map (fun f => (f, ⟨1, false⟩)), ntok := 0 }

/-- The default sequence entry used by out-of-range `getD` reads. -/
def dseq : (ℕ → ℕ) × DecSeq := (fun _ => 0, ⟨0, true⟩)

/-- Number of tokens of sequence `j` in the returned decode:
`tokenizer.decode(output[: int(length)])` slices a row of the `ntok`-column
token matrix to `int(seq_lengths[j])` entries, i.e. `min` of the two. -/
def decoded_len (st : DecBatch) (j : ℕ) : ℕ :=
  min ((st.seqs.getD j dseq).2.len) st.ntok

/-! ### helper lemmas about the decoding loop -/

theorem dec_loop_succ (stop_tok eos_tok n i : ℕ) (st : DecBatch) :
    dec_loop stop_tok eos_tok (n + 1) i st =
      if all_stopped (dec_batch_step stop_tok eos_tok i st) then
        dec_batch_step stop_tok eos_tok i st
      else dec_loop stop_tok eos_tok n (i + 1) (dec_batch_step stop_tok eos_tok i st) := rfl

theorem dec_batch_step_ntok (stop_tok eos_tok i : ℕ) (st : DecBatch) :
    (dec_batch_step stop_tok eos_tok i st).ntok = st.ntok + 1 := rfl

theorem dec_batch_step_seqs_len (stop_tok eos_tok i : ℕ) (st : DecBatch) :
    (dec_batch_step stop_tok eos_tok i st).seqs.length = st.seqs.length := by
  simp [dec_batch_step]

theorem dec_batch_step_getElem? (stop_tok eos_tok i j : ℕ) (st : DecBatch) :
    (dec_batch_step stop_tok eos_tok i st).seqs[j]? =
      (st.seqs[j]?).map (fun p => (p.1, dec_step stop_tok eos_tok (p.1 i) p.2)) := by
  simp [dec_batch_step]

theorem dec_loop_ntok_le (stop_tok eos_tok : ℕ) :
    ∀ (fuel i : ℕ) (st : DecBatch), (dec_loop stop_tok eos_tok fuel i st).ntok ≤ st.ntok + fuel := by
  intro fuel
  induction fuel with
  | zero => intro i st; exact Nat.le_add_right _ _
  | succ n ih =>
    intro i st
    rw [dec_loop_succ]
    by_cases h : all_stopped (dec_batch_step stop_tok eos_tok i st) = true
    · rw [if_pos h, dec_batch_step_ntok]; omega
    · rw [if_neg h]
      have := ih (i + 1) (dec_batch_step stop_tok eos_tok i st)
      rw [dec_batch_step_ntok] at this
      omega

theorem dec_loop_frozen (stop_tok eos_tok : ℕ) :
    ∀ (fuel i : ℕ) (st : DecBatch) (j : ℕ) (p : (ℕ → ℕ) × DecSeq), st.seqs[j]? = some p → p.2.stopped = true →
      ∃ q : (ℕ → ℕ) × DecSeq, (dec_loop stop_tok eos_tok fuel i st).seqs[j]? = some q ∧
        q.2.len = p.2.len ∧ q.2.stopped = true := by
  intro fuel
  induction fuel with
  | zero =>
    intro i st j p hp hs
    exact ⟨p, hp, rfl, hs⟩
  | succ n ih =>
    intro i st j p hp hs
    have hstep : (dec_batch_step stop_tok eos_tok i st).seqs[j]? =
        some (p.1, dec_step stop_tok eos_tok (p.1 i) p.2) := by
      rw [dec_batch_step_getElem?, hp]; rfl
    have hkeep : (dec_step stop_tok eos_tok (p.1 i) p.2).len = p.2.len ∧
        (dec_step stop_tok eos_tok (p.1 i) p.2).stopped = true := by
      constructor
      · simp [dec_step, hs]
      · simp [dec_step, hs]
    rw [dec_loop_succ]
    by_cases h : all_stopped (dec_batch_step stop_tok eos_tok i st) = true
    · rw [if_pos h]
      exact ⟨_, hstep, hkeep.1, hkeep.2⟩
    · rw [if_neg h]
      obtain ⟨q, hq, hql, hqs⟩ := ih (i + 1) (dec_batch_step stop_tok eos_tok i st) j
        (p.1, dec_step stop_tok eos_tok (p.1 i) p.2) hstep hkeep.2
      exact ⟨q, hq, hql.trans hkeep.1, hqs⟩

theorem dec_loop_running (stop_tok eos_tok : ℕ) :
    ∀ (fuel i : ℕ) (st : DecBatch) (j : ℕ) (p : (ℕ → ℕ) × DecSeq), st.seqs[j]? = some p → p.2.stopped = false →
      (∀ k, i ≤ k → k < i + fuel → p.1 k ≠ stop_tok ∧ p.1 k ≠ eos_tok) →
      ∃ q : (ℕ → ℕ) × DecSeq, (dec_loop stop_tok eos_tok fuel i st).seqs[j]? = some q ∧ q.1 = p.1 ∧
        q.2.len = p.2.len + fuel ∧ q.2.stopped = false ∧
        (dec_loop stop_tok eos_tok fuel i st).ntok = st.ntok + fuel := by
  intro fuel
  induction fuel with
  | zero =>
    intro i st j p hp hs _
    exact ⟨p, hp, rfl, rfl, hs, rfl⟩
  | succ n ih =>
    intro i st j p hp hs hstream
    have htok := hstream i (le_refl i) (by omega)
    have hstep : (dec_batch_step stop_tok eos_tok i st).seqs[j]? =
        some (p.1, dec_step stop_tok eos_tok (p.1 i) p.2) := by
      rw [dec_batch_step_getElem?, hp]; rfl
    have hlen : (dec_step stop_tok eos_tok (p.1 i) p.2).len = p.2.len + 1 := by
      simp [dec_step, hs]
    have hrun : (dec_step stop_tok eos_tok (p.1 i) p.2).stopped = false := by
      simp [dec_step, hs]
      exact ⟨htok.1, htok.2⟩
    have hnot_all : ¬ all_stopped (dec_batch_step stop_tok eos_tok i st) = true := by
      intro hall
      have hmem : (p.1, dec_step stop_tok eos_tok (p.1 i) p.2) ∈
          (dec_batch_step stop_tok eos_tok i st).seqs := by
        have hjlt : j < (dec_batch_step stop_tok eos_tok i st).seqs.length := by
          by_contra hge
          rw [List.getElem?_eq_none (Nat.le_of_not_lt hge)] at hstep
          exact Option.noConfusion hstep
        have := List.getElem?_eq_getElem hjlt
        rw [this] at hstep
        have heq := Option.some.inj hstep
        rw [← heq]
        exact List.getElem_mem hjlt
      have := List.all_eq_true.1 hall _ hmem
      rw [hrun] at this
      exact Bool.false_ne_true this
    rw [dec_loop_succ, if_neg hnot_all]
    have hstream2 : ∀ k, i + 1 ≤ k → k < (i + 1) + n → p.1 k ≠ stop_tok ∧ p.1 k ≠ eos_tok := by
      intro k h1 h2
      exact hstream k (by omega) (by omega)
    obtain ⟨q, hq, hq1, hql, hqs, hqn⟩ := ih (i + 1) (dec_batch_step stop_tok eos_tok i st) j
      (p.1, dec_step stop_tok eos_tok (p.1 i) p.2) hstep hrun hstream2
    refine ⟨q, hq, hq1, ?_, hqs, ?_⟩
    · rw [hql]; simp only [hlen]; omega
    · rw [hqn, dec_batch_step_ntok]; omega

/-! ### claim theorems for the scheduler and the decoder -/

/-- C5: per epoch the multi-task loop executes exactly
`min (number of IC batches) (number of VQA batches)` paired steps — it pulls one
batch from each dataloader in lockstep and stops the moment either iterator is
exhausted; in particular a 10-batch captioning loader paired with a 7-batch QA
loader yields exactly 7 paired steps. -/
theorem mtl_lockstep_paired_steps :
    (∀ {α β : Type} (ic : List α) (vqa : List β),
      (lockstep_pairs ic vqa).length = min ic.length vqa.length)
    ∧ (lockstep_pairs (List.range 10) (List.range 7)).length = 7 := by
  have hgen : ∀ {α β : Type} (ic : List α) (vqa : List β),
      (lockstep_pairs ic vqa).length = min ic.length vqa.length := by
    intro α β ic
    induction ic with
    | nil => intro vqa; cases vqa <;> simp [lockstep_pairs]
    | cons a as ih =>
      intro vqa
      cases vqa with
      | nil => simp [lockstep_pairs]
      | cons b bs => simp [lockstep_pairs, ih bs]; omega
  exact ⟨hgen, by rw [hgen]; rfl⟩

/-- C4 (evaluation at the failing input): with an IC dataloader of 2 batches
(losses 0, 0) and a VQA dataloader of 1 batch (loss 1), the epoch report
returned by the source divides the VQA loss sum by the IC dataloader's length:
it reports a VQA average of 1/2, whereas normalizing by the VQA dataloader's
own batch count would give 1/1 = 1. -/
theorem mtl_vqa_average_divisor_bug :
    mtl_epoch_report [0, 0] [1] = (0, 1/2)
    ∧ ((lockstep_pairs [(0 : ℚ), 0] [(1 : ℚ)]).map Prod.snd).sum / ([(1 : ℚ)]).length = 1
    ∧ (1/2 : ℚ) ≠ 1 := by
  refine ⟨?_, by norm_num [lockstep_pairs], by norm_num⟩
  show ((((lockstep_pairs [(0:ℚ), 0] [(1:ℚ)]).map Prod.fst).sum / 2),
    (((lockstep_pairs [(0:ℚ), 0] [(1:ℚ)]).map Prod.snd).sum / 2)) = ((0 : ℚ), (1/2 : ℚ))
  norm_num [lockstep_pairs]

/-- C3: for the greedy decoding loop, (i) every returned decoded length is at
most `entry_length`; (ii) the moment a sequence's chosen token equals the stop
token or the eos token it is marked stopped, and from a stopped state its
recorded length never changes for the remainder of the loop; (iii) a sequence
whose chosen-token stream never hits the stop/eos token within `entry_length`
steps is returned with the full `entry_length`. -/
theorem generate_topk_length_contract (stop_tok eos_tok entry_length : ℕ)
    (streams : List (ℕ → ℕ)) (j : ℕ) :
    decoded_len (dec_run stop_tok eos_tok entry_length streams) j ≤ entry_length
    ∧ (∀ (i : ℕ) (st : DecBatch) (p : (ℕ → ℕ) × DecSeq), st.seqs[j]? = some p →
        (p.1 i = stop_tok ∨ p.1 i = eos_tok) →
        ∃ q : (ℕ → ℕ) × DecSeq,
          (dec_batch_step stop_tok eos_tok i st).seqs[j]? = some q ∧ q.2.stopped = true)
    ∧ (∀ (fuel i : ℕ) (st : DecBatch) (p : (ℕ → ℕ) × DecSeq),
        st.seqs[j]? = some p → p.2.stopped = true →
        ∃ q : (ℕ → ℕ) × DecSeq, (dec_loop stop_tok eos_tok fuel i st).seqs[j]? = some q ∧
          q.2.len = p.2.len ∧ q.2.stopped = true)
    ∧ (∀ f : ℕ → ℕ, streams[j]? = some f →
        (∀ i, i < entry_length → f i ≠ stop_tok ∧ f i ≠ eos_tok) →
        decoded_len (dec_run stop_tok eos_tok entry_length streams) j = entry_length) := by
  refine ⟨?_, ?_, ?_, ?_⟩
  · have h := dec_loop_ntok_le stop_tok eos_tok entry_length 0
      { seqs := streams.map (fun f => (f, ⟨1, false⟩)), ntok := 0 }
    have : (dec_run stop_tok eos_tok entry_length streams).ntok ≤ entry_length := by
      simpa [dec_run] using h
    exact le_trans (Nat.min_le_right _ _) this
  · intro i st p hp htok
    refine ⟨(p.1, dec_step stop_tok eos_tok (p.1 i) p.2), ?_, ?_⟩
    · rw [dec_batch_step_getElem?, hp]; rfl
    · rcases htok with h | h <;> simp [dec_step, h]
  · intro fuel i st p hp hs
    exact dec_loop_frozen stop_tok eos_tok fuel i st j p hp hs
  · intro f hf hstream
    have hj : (streams.map (fun f => ((f, ⟨1, false⟩) : (ℕ → ℕ) × DecSeq)))[j]? =
        some (f, ⟨1, false⟩) := by
      rw [List.getElem?_map, hf]; rfl
    obtain ⟨q, hq, _, hql, _, hqn⟩ := dec_loop_running stop_tok eos_tok entry_length 0
      { seqs := streams.map (fun f => (f, ⟨1, false⟩)), ntok := 0 } j (f, ⟨1, false⟩)
      hj rfl (fun k _ hk => hstream k (by omega))
    unfold decoded_len dec_run
    rw [List.getD_eq_getElem?_getD, hq]
    simp only [Option.getD_some, hqn, hql]
    omega

/-- Witness for C3: a single-sequence batch whose stream constantly emits token
9 with stop token 5, eos 7 and `entry_length = 3` is returned with decoded
length exactly 3. -/
theorem generate_topk_length_contract_witness :
    ([fun _ => 9] : List (ℕ → ℕ))[0]? = some (fun _ => 9)
    ∧ decoded_len (dec_run 5 7 3 [fun _ => 9]) 0 = 3 :=
  ⟨rfl, (generate_topk_length_contract 5 7 3 [fun _ => 9] 0).2.2.2 (fun _ => 9) rfl
    (fun i _ => ⟨by simp, by simp⟩)⟩

/-! ## Datasets and supervision-mask construction

`pad_or_truncate` is the padding step shared verbatim by every `pad_tokens`
in the repository: `padding = max_seq_len - tokens.shape[0]`; if positive,
append `padding` copies of the `-1` sentinel; if negative, keep the first
`max_seq_len` tokens; otherwise leave the tokens alone. -/

def pad_or_truncate (n : ℕ) (tokens : List ℤ) : List ℤ :=
  if (0 : ℤ) < (n : ℤ) - tokens.length then
    tokens ++ List.replicate (n - tokens.length) (-1 : ℤ)
  else if ((n : ℤ) - tokens.length) < 0 then tokens.take n
  else tokens

theorem pad_or_truncate_length (n : ℕ) (tokens : List ℤ) :
    (pad_or_truncate n tokens).length = n := by
  unfold pad_or_truncate
  by_cases h1 : (0 : ℤ) < (n : ℤ) - tokens.length
  · rw [if_pos h1]; simp; omega
  · rw [if_neg h1]
    by_cases h2 : ((n : ℤ) - tokens.length) < 0
    · rw [if_pos h2]; simp; omega
    · rw [if_neg h2]; omega

/-! ### image-captioning dataset (train_IC.py ClipCocoDataset) -/

/-- The statistic `min(int(all_len.mean() + all_len.std() * 10), int(all_len.max()))`
of __init__ (train_IC.py lines 84-85).  `all_len` is the float tensor of
per-caption token counts; `torch.Tensor.std` uses the unbiased estimator
(divisor `n - 1`).  Python `int()` truncates toward zero; both arguments are
nonnegative here (token counts), so truncation is `Int.floor`.  (For a
single-caption corpus torch's `std` is NaN; the embedding maps that corner to
`0/0 = 0` instead.) -/
noncomputable def torch_mean (lens : List ℕ) : ℝ :=
  ((lens.map (fun l => (l : ℝ))).sum) / lens.length

noncomputable def torch_std (lens : List ℕ) : ℝ :=
  Real.sqrt ((lens.map (fun l => ((l : ℝ) - torch_mean lens) ^ 2)).sum /
    ((lens.length : ℝ) - 1))

noncomputable def compute_max_seq_len (lens : List ℕ) : ℤ :=
  min ⌊torch_mean lens + torch_std lens * 10⌋ ⌊((lens.foldr max 0 : ℕ) : ℝ)⌋

/-- The captioning dataset state: the fields `pad_tokens` reads and writes.
The pickle loading, CLIP embeddings and tokenizer calls of __init__ are
external; `captions_tokens` is the list of tokenized captions they produce. -/
structure ClipCocoDataset where
  pref_length : ℕ
  max_seq_len : ℕ
  captions_tokens : List (List ℤ)

/-- ClipCocoDataset.__init__ (train_IC.py lines 60-86): `max_seq_len` is set
once from the whole corpus's token-length statistic and never touched again. -/
noncomputable def ClipCocoDataset.init (pl : ℕ) (toks : List (List ℤ)) : ClipCocoDataset :=
  { pref_length := pl
    max_seq_len := (compute_max_seq_len (toks.map List.length)).toNat
    captions_tokens := toks }

/-- ClipCocoDataset.pad_tokens (train_IC.py lines 34-48).  Returns the
(zeroed) token row and the mask `ones(prefix_length) ++ tokens.ge(0)`, and the
updated dataset state.  The source writes the padded row back into
`self.captions_tokens[item]` and then zeroes the sentinel positions in place
on the same tensor object, so the stored row ends up zeroed as well. -/
def pad_tokens (ds : ClipCocoDataset) (item : ℕ) : (List ℤ × List ℚ) × ClipCocoDataset :=
  let tokens2 := pad_or_truncate ds.max_seq_len (ds.captions_tokens.getD item [])
  let mask : List ℚ := tokens2.map (fun t => if 0 ≤ t then 1 else 0)
  let tokens3 := tokens2.map (fun t => if 0 ≤ t then t else 0)
  ((tokens3, List.replicate ds.pref_length (1 : ℚ) ++ mask),
    { ds with captions_tokens := ds.captions_tokens.set item tokens3 })

theorem pad_tokens_preserves (ds : ClipCocoDataset) (item : ℕ) :
    ((pad_tokens ds item).2.max_seq_len = ds.max_seq_len)
    ∧ ((pad_tokens ds item).2.pref_length = ds.pref_length) := ⟨rfl, rfl⟩

/-- C8: after any sequence of `pad_tokens` accesses to a freshly constructed
dataset, `max_seq_len` still equals the construction-time statistic
`min(int(mean + 10·std), int(max))` over the corpus token lengths, and every
mask `pad_tokens` returns has length `prefix_length + max_seq_len`. -/
theorem pad_tokens_mask_length (pl : ℕ) (toks : List (List ℤ))
    (accesses : List ℕ) (item : ℕ) :
    (accesses.foldl (fun d i => (pad_tokens d i).2) (ClipCocoDataset.init pl toks)).max_seq_len
      = (compute_max_seq_len (toks.map List.length)).toNat
    ∧ ((pad_tokens (accesses.foldl (fun d i => (pad_tokens d i).2)
          (ClipCocoDataset.init pl toks)) item).1.2).length
      = pl + (compute_max_seq_len (toks.map List.length)).toNat := by
  have hinv : ∀ (l : List ℕ) (d : ClipCocoDataset),
      (l.foldl (fun d i => (pad_tokens d i).2) d).max_seq_len = d.max_seq_len
      ∧ (l.foldl (fun d i => (pad_tokens d i).2) d).pref_length = d.pref_length := by
    intro l
    induction l with
    | nil => intro d; exact ⟨rfl, rfl⟩
    | cons a as ih =>
      intro d
      have := ih (pad_tokens d a).2
      simpa [List.foldl_cons] using this
  have hlen : ∀ (d : ClipCocoDataset) (i : ℕ),
      ((pad_tokens d i).1.2).length = d.pref_length + d.max_seq_len := by
    intro d i
    unfold pad_tokens
    simp [pad_or_truncate_length]
  have h1 := (hinv accesses (ClipCocoDataset.init pl toks)).1
  have h2 := (hinv accesses (ClipCocoDataset.init pl toks)).2
  refine ⟨h1, ?_⟩
  rw [hlen, h1, h2]
  rfl

/-! ### VQA dataset (train_MTL_IC_VQA.py ClipCocoDataset_VQA) -/

/-- The tokenizer collaborator: opaque text-to-token-ids codec (spec section 6). -/
structure Tokenizer where
  encode : String → List ℤ
  eos_token_id : ℤ

structure ClipCocoDataset_VQA where
  tokenizer : Tokenizer
  pref_length : ℕ
  max_seq_len : ℕ
  captions_tokens : List (List ℤ)
  questions : List String
  answers : List String

/-- ClipCocoDataset_VQA.pad_tokens (train_MTL_IC_VQA.py lines 86-122).
`q_range = len(encode(question))`, `a_range = len(encode(answer)) + 1`
(the `+ 1` accounts for the eos appended to the stored tokens at
construction), `rest_range = max_seq_len - q_range - a_range`.  The returned
triple is (zeroed padded tokens, loss mask `mask`, attention mask
`mask4gpt`); the stored row is mutated as in the IC variant. -/
def pad_tokens_vqa (ds : ClipCocoDataset_VQA) (item : ℕ) :
    (List ℤ × List ℚ × List ℚ) × ClipCocoDataset_VQA :=
  let q_range : ℕ := (ds.tokenizer.encode (ds.questions.getD item "")).length
  let a_range : ℕ := (ds.tokenizer.encode (ds.answers.getD item "")).length + 1
  let rest_range : ℤ := (ds.max_seq_len : ℤ) - q_range - a_range
  let need_pred : List ℚ :=
    if 0 ≤ rest_range then
      List.replicate q_range 0 ++ List.replicate a_range 1 ++
        List.replicate rest_range.toNat 0
    else List.replicate ds.max_seq_len 0
  let need_pred_4gpt : List ℚ :=
    if 0 ≤ rest_range then
      List.replicate q_range 1 ++ List.replicate a_range 1 ++
        List.replicate rest_range.toNat 0
    else List.replicate ds.max_seq_len 0
  let tokens2 := pad_or_truncate ds.max_seq_len (ds.captions_tokens.getD item [])
  let tokens3 := tokens2.map (fun t => if 0 ≤ t then t else 0)
  let mask := List.replicate ds.pref_length (1 : ℚ) ++ need_pred
  let mask4gpt := List.replicate ds.pref_length (1 : ℚ) ++ need_pred_4gpt
  ((tokens3, mask, mask4gpt),
    { ds with captions_tokens := ds.captions_tokens.set item tokens3 })

/-- `q_len` of an example: length of the separately tokenized question
(source variable `q_range`). -/
def vqa_q_len (ds : ClipCocoDataset_VQA) (item : ℕ) : ℕ :=
  (ds.tokenizer.encode (ds.questions.getD item "")).length

/-- `a_len` of an example as the MTL VQA builder counts it: length of the
separately tokenized answer plus one trailing end-of-sequence marker
(source variable `a_range`, train_MTL_IC_VQA.py line 92). -/
def vqa_a_len (ds : ClipCocoDataset_VQA) (item : ℕ) : ℕ :=
  (ds.tokenizer.encode (ds.answers.getD item "")).length + 1

/-- `a_range` as the other cited builder counts it: plain tokenized answer
length, with NO `+ 1` for an end-of-sequence marker
(trainy_notes_VQA.py line 34). -/
def vqa_a_len_notes (ds : ClipCocoDataset_VQA) (item : ℕ) : ℕ :=
  (ds.tokenizer.encode (ds.answers.getD item "")).length

/-- ClipCocoDataset.pad_tokens of trainy_notes_VQA.py (lines 28-59).  It
differs from the MTL builder in two ways: `a_range = len(encode(answer))`
with no trailing end-of-sequence marker counted, and only the single mask
`need_pred` (prefixed with ones) is built — there is no separate
`mask4gpt` attention mask (the caller feeds this one mask to the model).
The third returned component is the tokenized answer. -/
def pad_tokens_notes (ds : ClipCocoDataset_VQA) (item : ℕ) :
    (List ℤ × List ℚ × List ℤ) × ClipCocoDataset_VQA :=
  let q_range : ℕ := (ds.tokenizer.encode (ds.questions.getD item "")).length
  let a_range : ℕ := (ds.tokenizer.encode (ds.answers.getD item "")).length
  let rest_range : ℤ := (ds.max_seq_len : ℤ) - q_range - a_range
  let need_pred : List ℚ :=
    if 0 ≤ rest_range then
      List.replicate q_range 0 ++ List.replicate a_range 1 ++
        List.replicate rest_range.toNat 0
    else List.replicate ds.max_seq_len 0
  let tokens2 := pad_or_truncate ds.max_seq_len (ds.captions_tokens.getD item [])
  let tokens3 := tokens2.map (fun t => if 0 ≤ t then t else 0)
  let mask := List.replicate ds.pref_length (1 : ℚ) ++ need_pred
  ((tokens3, mask, ds.tokenizer.encode (ds.answers.getD item "")),
    { ds with captions_tokens := ds.captions_tokens.set item tokens3 })

/-- C1 amended: the claimed mask layout holds as stated for the MTL VQA
builder (`ClipCocoDataset_VQA.pad_tokens`, train_MTL_IC_VQA.py 86-122), whose
`a_len` counts one trailing end-of-sequence marker: for
`q_len + a_len ≤ max_seq_len` the loss mask's text region is `q_len` zeros,
`a_len` ones, then zeros, and the attention mask's text region is
`q_len + a_len` ones then zeros, both preceded by `prefix_length` ones; both
text regions are all zeros on overflow.  For the other cited builder
(`ClipCocoDataset.pad_tokens`, trainy_notes_VQA.py 28-59) the answer span
counts NO end-of-sequence marker (`a_len_notes = len(encode(answer))`) and
only that single mask is returned (no separate attention mask exists): its
text region is `q_len` zeros, `a_len_notes` ones, then zeros, all zeros on
overflow. -/
theorem pad_tokens_vqa_masks (ds : ClipCocoDataset_VQA) (item : ℕ) :
    (vqa_q_len ds item + vqa_a_len ds item ≤ ds.max_seq_len →
      (pad_tokens_vqa ds item).1.2.1 =
        List.replicate ds.pref_length 1 ++
          (List.replicate (vqa_q_len ds item) 0 ++ List.replicate (vqa_a_len ds item) 1 ++
            List.replicate (ds.max_seq_len - vqa_q_len ds item - vqa_a_len ds item) 0)
      ∧ (pad_tokens_vqa ds item).1.2.2 =
        List.replicate ds.pref_length 1 ++
          (List.replicate (vqa_q_len ds item + vqa_a_len ds item) 1 ++
            List.replicate (ds.max_seq_len - vqa_q_len ds item - vqa_a_len ds item) 0))
    ∧ (ds.max_seq_len < vqa_q_len ds item + vqa_a_len ds item →
      (pad_tokens_vqa ds item).1.2.1 =
        List.replicate ds.pref_length 1 ++ List.replicate ds.max_seq_len 0
      ∧ (pad_tokens_vqa ds item).1.2.2 =
        List.replicate ds.pref_length 1 ++ List.replicate ds.max_seq_len 0)
    ∧ (vqa_q_len ds item + vqa_a_len_notes ds item ≤ ds.max_seq_len →
      (pad_tokens_notes ds item).1.2.1 =
        List.replicate ds.pref_length 1 ++
          (List.replicate (vqa_q_len ds item) 0 ++
            List.replicate (vqa_a_len_notes ds item) 1 ++
            List.replicate (ds.max_seq_len - vqa_q_len ds item - vqa_a_len_notes ds item) 0))
    ∧ (ds.max_seq_len < vqa_q_len ds item + vqa_a_len_notes ds item →
      (pad_tokens_notes ds item).1.2.1 =
        List.replicate ds.pref_length 1 ++ List.replicate ds.max_seq_len 0) := by
  refine ⟨?_, ?_, ?_, ?_⟩
  · intro h
    have hc : (0 : ℤ) ≤ (ds.max_seq_len : ℤ) - vqa_q_len ds item - vqa_a_len ds item := by
      unfold vqa_q_len vqa_a_len at h ⊢; omega
    have htn : ((ds.max_seq_len : ℤ) - vqa_q_len ds item - vqa_a_len ds item).toNat =
        ds.max_seq_len - vqa_q_len ds item - vqa_a_len ds item := by omega
    constructor
    · show (List.replicate ds.pref_length (1 : ℚ) ++
          (if 0 ≤ (ds.max_seq_len : ℤ) - vqa_q_len ds item - vqa_a_len ds item then
            List.replicate (vqa_q_len ds item) (0 : ℚ) ++
              List.replicate (vqa_a_len ds item) 1 ++
              List.replicate ((ds.max_seq_len : ℤ) - vqa_q_len ds item - vqa_a_len ds item).toNat 0
          else List.replicate ds.max_seq_len 0)) = _
      rw [if_pos hc, htn, List.append_assoc]
    · show (List.replicate ds.pref_length (1 : ℚ) ++
          (if 0 ≤ (ds.max_seq_len : ℤ) - vqa_q_len ds item - vqa_a_len ds item then
            List.replicate (vqa_q_len ds item) (1 : ℚ) ++
              List.replicate (vqa_a_len ds item) 1 ++
              List.replicate ((ds.max_seq_len : ℤ) - vqa_q_len ds item - vqa_a_len ds item).toNat 0
          else List.replicate ds.max_seq_len 0)) = _
      rw [if_pos hc, htn, ← List.replicate_add]
  · intro h
    have hc : ¬ (0 : ℤ) ≤ (ds.max_seq_len : ℤ) - vqa_q_len ds item - vqa_a_len ds item := by
      unfold vqa_q_len vqa_a_len at h ⊢; omega
    constructor
    · show (List.replicate ds.pref_length (1 : ℚ) ++
          (if 0 ≤ (ds.max_seq_len : ℤ) - vqa_q_len ds item - vqa_a_len ds item then
            List.replicate (vqa_q_len ds item) (0 : ℚ) ++
              List.replicate (vqa_a_len ds item) 1 ++
              List.replicate ((ds.max_seq_len : ℤ) - vqa_q_len ds item - vqa_a_len ds item).toNat 0
          else List.replicate ds.max_seq_len 0)) = _
      rw [if_neg hc]
    · show (List.replicate ds.pref_length (1 : ℚ) ++
          (if 0 ≤ (ds.max_seq_len : ℤ) - vqa_q_len ds item - vqa_a_len ds item then
            List.replicate (vqa_q_len ds item) (1 : ℚ) ++
              List.replicate (vqa_a_len ds item) 1 ++
              List.replicate ((ds.max_seq_len : ℤ) - vqa_q_len ds item - vqa_a_len ds item).toNat 0
          else List.replicate ds.max_seq_len 0)) = _
      rw [if_neg hc]
  · intro h
    have hc : (0 : ℤ) ≤ (ds.max_seq_len : ℤ) - vqa_q_len ds item - vqa_a_len_notes ds item := by
      unfold vqa_q_len vqa_a_len_notes at h ⊢; omega
    have htn : ((ds.max_seq_len : ℤ) - vqa_q_len ds item - vqa_a_len_notes ds item).toNat =
        ds.max_seq_len - vqa_q_len ds item - vqa_a_len_notes ds item := by omega
    show (List.replicate ds.pref_length (1 : ℚ) ++
        (if 0 ≤ (ds.max_seq_len : ℤ) - vqa_q_len ds item - vqa_a_len_notes ds item then
          List.replicate (vqa_q_len ds item) (0 : ℚ) ++
            List.replicate (vqa_a_len_notes ds item) 1 ++
            List.replicate
              ((ds.max_seq_len : ℤ) - vqa_q_len ds item - vqa_a_len_notes ds item).toNat 0
        else List.replicate ds.max_seq_len 0)) = _
    rw [if_pos hc, htn, List.append_assoc]
  · intro h
    have hc : ¬ (0 : ℤ) ≤ (ds.max_seq_len : ℤ) - vqa_q_len ds item - vqa_a_len_notes ds item := by
      unfold vqa_q_len vqa_a_len_notes at h ⊢; omega
    show (List.replicate ds.pref_length (1 : ℚ) ++
        (if 0 ≤ (ds.max_seq_len : ℤ) - vqa_q_len ds item - vqa_a_len_notes ds item then
          List.replicate (vqa_q_len ds item) (0 : ℚ) ++
            List.replicate (vqa_a_len_notes ds item) 1 ++
            List.replicate
              ((ds.max_seq_len : ℤ) - vqa_q_len ds item - vqa_a_len_notes ds item).toNat 0
        else List.replicate ds.max_seq_len 0)) = _
    rw [if_neg hc]

/-- A tiny concrete VQA dataset for the C1 counterexample and witness: every
text tokenizes to two tokens, so `q_len = 2`, the MTL builder's
`a_len = 2 + 1 = 3`, the notes builder's `a_len_notes = 2`,
`max_seq_len = 5`. -/
def vqa_demo : ClipCocoDataset_VQA :=
  { tokenizer := { encode := fun _ => [3, 4], eos_token_id := 50256 }
    pref_length := 2
    max_seq_len := 5
    captions_tokens := [[4, 5, 6]]
    questions := ["ab"]
    answers := ["c"] }

/-- Counterexample for C1 at the cited `trainy_notes_VQA.py` builder: at
`vqa_demo` item 0 the claim's `a_len` (answer length including one trailing
end-of-sequence marker) is 3 and `q_len + a_len = 5 ≤ max_seq_len`, so the
claim predicts a loss mask of 2 prefix ones, 2 zeros, 3 ones; but that
builder's mask is 2 prefix ones, 2 zeros, 2 ones, 1 zero — the answer span
it supervises counts no end-of-sequence marker.  (It also returns no second
mask at all, so no AttentionMask of `q_len + a_len` ones exists there.) -/
theorem pad_tokens_notes_cex :
    vqa_q_len vqa_demo 0 + vqa_a_len vqa_demo 0 ≤ vqa_demo.max_seq_len
    ∧ (pad_tokens_notes vqa_demo 0).1.2.1 = [1, 1, 0, 0, 1, 1, 0]
    ∧ (pad_tokens_notes vqa_demo 0).1.2.1 ≠
        List.replicate vqa_demo.pref_length 1 ++
          (List.replicate (vqa_q_len vqa_demo 0) 0 ++
            List.replicate (vqa_a_len vqa_demo 0) 1 ++
            List.replicate
              (vqa_demo.max_seq_len - vqa_q_len vqa_demo 0 - vqa_a_len vqa_demo 0) 0) := by
  refine ⟨by decide, by decide, by decide⟩

/-- Witness for the C1 amended theorem at `vqa_demo`: the MTL builder at the
boundary case `rest_len = 0`, and the notes builder with `rest_len = 1`. -/
theorem pad_tokens_vqa_masks_witness :
    vqa_q_len vqa_demo 0 + vqa_a_len vqa_demo 0 ≤ vqa_demo.max_seq_len
    ∧ (pad_tokens_vqa vqa_demo 0).1.2.1 =
        List.replicate vqa_demo.pref_length 1 ++
          (List.replicate (vqa_q_len vqa_demo 0) 0 ++ List.replicate (vqa_a_len vqa_demo 0) 1 ++
            List.replicate (vqa_demo.max_seq_len - vqa_q_len vqa_demo 0 - vqa_a_len vqa_demo 0) 0)
    ∧ (pad_tokens_vqa vqa_demo 0).1.2.2 =
        List.replicate vqa_demo.pref_length 1 ++
          (List.replicate (vqa_q_len vqa_demo 0 + vqa_a_len vqa_demo 0) 1 ++
            List.replicate (vqa_demo.max_seq_len - vqa_q_len vqa_demo 0 - vqa_a_len vqa_demo 0) 0)
    ∧ (pad_tokens_notes vqa_demo 0).1.2.1 =
        List.replicate vqa_demo.pref_length 1 ++
          (List.replicate (vqa_q_len vqa_demo 0) 0 ++
            List.replicate (vqa_a_len_notes vqa_demo 0) 1 ++
            List.replicate
              (vqa_demo.max_seq_len - vqa_q_len vqa_demo 0 - vqa_a_len_notes vqa_demo 0) 0) := by
  have h : vqa_q_len vqa_demo 0 + vqa_a_len vqa_demo 0 ≤ vqa_demo.max_seq_len := by decide
  have hnotes : vqa_q_len vqa_demo 0 + vqa_a_len_notes vqa_demo 0 ≤ vqa_demo.max_seq_len := by
    decide
  have hc := (pad_tokens_vqa_masks vqa_demo 0).1 h
  have hn := (pad_tokens_vqa_masks vqa_demo 0).2.2.1 hnotes
  exact ⟨h, hc.1, hc.2, hn⟩

/-! ## Prefix-only fine-tuning (train_IC.py ClipCaptionPrefix, lines 270-278)

A `TorchModule` abstracts a PyTorch submodule: its registered parameters
(as opaque identifiers) and its `training` flag.  `ClipCaptionModel` has the
two submodules `self.gpt` and `self.clip_project`; `nn.Module.train(mode)`
sets the flag on the module and all submodules, `nn.Module.parameters()`
yields all submodule parameters in registration order (`gpt` first). -/

structure TorchModule where
  params : List ℕ
  training : Bool

structure CaptionModelState where
  gpt : TorchModule
  clip_project : TorchModule
  training : Bool

/-- `nn.Module.train(mode)` on the base ClipCaptionModel: recursive flag set. -/
def caption_model_train (m : CaptionModelState) (mode : Bool) : CaptionModelState :=
  { m with training := mode
           gpt := { m.gpt with training := mode }
           clip_project := { m.clip_project with training := mode } }

/-- `nn.Module.eval()` on a submodule: `train(False)` on its subtree. -/
def module_eval (sub : TorchModule) : TorchModule :=
  { sub with training := false }

/-- The base class's `parameters()`: every submodule's parameters. -/
def caption_model_parameters (m : CaptionModelState) : List ℕ :=
  m.gpt.params ++ m.clip_project.params

/-- ClipCaptionPrefix.parameters override: `return self.clip_project.parameters()`. -/
def caption_pref_parameters (m : CaptionModelState) : List ℕ :=
  m.clip_project.params

/-- ClipCaptionPrefix.train override: `super().train(mode)` then `self.gpt.eval()`. -/
def caption_pref_train (m : CaptionModelState) (mode : Bool) : CaptionModelState :=
  let m1 := caption_model_train m mode
  { m1 with gpt := module_eval m1.gpt }

/-- C9: in prefix-only mode `parameters()` yields exactly the prefix mapper's
parameters and never any GPT-2 parameter (the two submodules hold distinct
parameter objects), and after every `train(mode)` call the GPT-2 submodule is
in evaluation mode while the mapper follows `mode`; the GPT-2 parameters stay
loaded in the model. -/
theorem caption_pref_contract (m : CaptionModelState) (mode : Bool)
    (hdistinct : ∀ p ∈ m.clip_project.params, p ∉ m.gpt.params) :
    caption_pref_parameters m = m.clip_project.params
    ∧ (∀ p ∈ caption_pref_parameters m, p ∉ m.gpt.params)
    ∧ (caption_pref_train m mode).gpt.training = false
    ∧ (caption_pref_train m mode).clip_project.training = mode
    ∧ (caption_pref_train m mode).gpt.params = m.gpt.params := by
  refine ⟨rfl, ?_, rfl, rfl, rfl⟩
  intro p hp
  exact hdistinct p hp

/-- Witness for C9 at a concrete two-parameter model. -/
theorem caption_pref_contract_witness :
    (∀ p ∈ (({ gpt := ⟨[10], true⟩, clip_project := ⟨[20], true⟩, training := true } :
        CaptionModelState)).clip_project.params,
      p ∉ (({ gpt := ⟨[10], true⟩, clip_project := ⟨[20], true⟩, training := true } :
        CaptionModelState)).gpt.params)
    ∧ (caption_pref_train
        { gpt := ⟨[10], true⟩, clip_project := ⟨[20], true⟩, training := true } true).gpt.training
      = false :=
  ⟨by decide, (caption_pref_contract
      { gpt := ⟨[10], true⟩, clip_project := ⟨[20], true⟩, training := true } true
      (by decide)).2.2.1⟩

/-! ## Greedy choice invariance (train_IC.py generate_topk, lines 455-459)

Each decoding step computes `logits[:, -1, :] / temperature`, then
`.softmax(-1).log()`, then `.topk(1, -1)`.  `argmax_idx` is the index
`topk(1)` returns for a row (the first position attaining the maximum). -/

noncomputable def softmax (l : List ℝ) : List ℝ :=
  let e := l.map Real.exp
  e.map (fun x => x / e.sum)

/-- The transform applied to the last-position logits row before `topk(1)`:
temperature scaling (skipped when `temperature ≤ 0`), softmax, log. -/
noncomputable def topk_transform (temperature : ℝ) (logits : List ℝ) : List ℝ :=
  (softmax (logits.map (fun x => x / (if 0 < temperature then temperature else 1)))).map
    Real.log

noncomputable def argmax_aux : List ℝ → ℕ → ℕ → ℝ → ℕ
  | [], _, bi, _ => bi
  | x :: xs, i, bi, bv => if bv < x then argmax_aux xs (i + 1) i x else argmax_aux xs (i + 1) bi bv

/-- Index of the first maximal entry of a row — the index `topk(1)` picks. -/
noncomputable def argmax_idx : List ℝ → ℕ
  | [] => 0
  | x :: xs => argmax_aux xs 1 0 x

theorem argmax_aux_map_mono (f : ℝ → ℝ) (hf : StrictMono f) :
    ∀ (l : List ℝ) (i bi : ℕ) (bv : ℝ),
      argmax_aux (l.map f) i bi (f bv) = argmax_aux l i bi bv := by
  intro l
  induction l with
  | nil => intro i bi bv; rfl
  | cons x xs ih =>
    intro i bi bv
    simp only [List.map_cons, argmax_aux]
    by_cases h : bv < x
    · rw [if_pos (hf h), if_pos h, ih]
    · rw [if_neg (fun hc => h (hf.lt_iff_lt.1 hc)), if_neg h, ih]

theorem argmax_idx_map_mono (f : ℝ → ℝ) (hf : StrictMono f) (l : List ℝ) :
    argmax_idx (l.map f) = argmax_idx l := by
  cases l with
  | nil => rfl
  | cons x xs => exact argmax_aux_map_mono f hf xs 1 0 x

/-- C10: for every temperature `t > 0` and nonempty logits row, the index
`topk(1)` picks after dividing by the temperature, applying softmax and
taking the log equals the argmax of the raw logits: the transform never
changes the greedy top-1 selection. -/
theorem topk_transform_argmax (t : ℝ) (l : List ℝ) (ht : 0 < t) (hl : l ≠ []) :
    argmax_idx (topk_transform t l) = argmax_idx l := by
  have hS : 0 < ((l.map (fun x => x / t)).map Real.exp).sum := by
    apply List.sum_pos
    · intro x hx
      simp only [List.mem_map] at hx
      obtain ⟨y, _, rfl⟩ := hx
      exact Real.exp_pos _
    · simp [hl]
  set S := ((l.map (fun x => x / t)).map Real.exp).sum with hSdef
  have hform : topk_transform t l = l.map (fun x => Real.log (Real.exp (x / t) / S)) := by
    unfold topk_transform softmax
    rw [if_pos ht]
    simp [List.map_map, Function.comp_def, hSdef]
  rw [hform]
  apply argmax_idx_map_mono
  intro a b hab
  have h1 : Real.log (Real.exp (a / t) / S) = a / t - Real.log S := by
    rw [Real.log_div (Real.exp_ne_zero _) (ne_of_gt hS), Real.log_exp]
  have h2 : Real.log (Real.exp (b / t) / S) = b / t - Real.log S := by
    rw [Real.log_div (Real.exp_ne_zero _) (ne_of_gt hS), Real.log_exp]
  dsimp only
  rw [h1, h2]
  have : a / t < b / t := by
    exact div_lt_div_of_pos_right hab ht
  linarith

/-- Witness for C10: temperature 1, logits row `[0, 1]`. -/
theorem topk_transform_argmax_witness :
    (0 : ℝ) < 1 ∧ ([(0 : ℝ), 1] ≠ [])
    ∧ argmax_idx (topk_transform 1 [(0 : ℝ), 1]) = argmax_idx [(0 : ℝ), 1] :=
  ⟨by norm_num, by simp,
    topk_transform_argmax 1 [(0 : ℝ), 1] (by norm_num) (by simp)⟩

/-! ## Attention stack (train_IC.py lines 89-237)

Tensors are nested lists of `ℝ` (batch × seq × channels).  Weight values are
opaque parameters of the embedding — the claims about this stack concern
construction-time checks, the mask polarity and output shapes. -/

def dotR (a b : List ℝ) : ℝ := (List.zipWith (fun x y => x * y) a b).sum

structure LinearLayer where
  weight : List (List ℝ)
  bias : List ℝ

/-- `nn.Linear`: one output `row · v + bias` per weight row.  A layer built
with `bias=False` is modelled as one whose bias entries are all zero. -/
def linearApply (L : LinearLayer) (v : List ℝ) : List ℝ :=
  List.zipWith (fun row bv => dotR row v + bv) L.weight L.bias

/-- Output-dimension well-formedness of a linear layer. -/
def Wf_lin_out (dout : ℕ) (L : LinearLayer) : Prop :=
  L.weight.length = dout ∧ L.bias.length = dout

theorem linearApply_length (dout : ℕ) (L : LinearLayer) (h : Wf_lin_out dout L) (v : List ℝ) :
    (linearApply L v).length = dout := by
  unfold linearApply
  rw [List.length_zipWith, h.1, h.2, Nat.min_self]

/-- `reshape`-style chunking of a flat buffer into consecutive rows of `k`
entries; the fuel argument keeps the recursion structural. -/
def chunks_fuel {α : Type} (k : ℕ) : ℕ → List α → List (List α)
  | 0, _ => []
  | fuel + 1, v => if v.isEmpty then [] else v.take k :: chunks_fuel k fuel (v.drop k)

def chunks {α : Type} (k : ℕ) (v : List α) : List (List α) := chunks_fuel k v.length v

theorem chunks_fuel_spec {α : Type} (k : ℕ) (hk : 0 < k) :
    ∀ (n fuel : ℕ) (v : List α), v.length = n * k → n ≤ fuel →
      (chunks_fuel k fuel v).length = n ∧ ∀ r ∈ chunks_fuel k fuel v, r.length = k := by
  intro n
  induction n with
  | zero =>
    intro fuel v hv _
    have hnil : v = [] := List.eq_nil_of_length_eq_zero (by omega)
    subst hnil
    cases fuel with
    | zero => exact ⟨rfl, by intro r hr; cases hr⟩
    | succ m => exact ⟨rfl, by intro r hr; simp [chunks_fuel] at hr⟩
  | succ nn ih =>
    intro fuel v hv hf
    cases fuel with
    | zero => omega
    | succ m =>
      have hpos : 0 < v.length := by
        rw [hv]; exact Nat.mul_pos (Nat.succ_pos nn) hk
      have hvne : ¬ v.isEmpty = true := by
        rw [List.isEmpty_iff]
        intro hc; rw [hc] at hpos; simp at hpos
      have hkle : k ≤ v.length := by
        rw [hv, Nat.succ_mul]; omega
      have hdrop : (v.drop k).length = nn * k := by
        rw [List.length_drop, hv, Nat.succ_mul]; omega
      have hrest := ih m (v.drop k) hdrop (by omega)
      constructor
      · simp only [chunks_fuel, if_neg hvne, List.length_cons, hrest.1]
      · intro r hr
        simp only [chunks_fuel, if_neg hvne] at hr
        rcases List.mem_cons.1 hr with rfl | hr2
        · rw [List.length_take]; omega
        · exact hrest.2 r hr2

theorem chunks_spec {α : Type} (k n : ℕ) (hk : 0 < k) (v : List α) (hv : v.length = n * k) :
    (chunks k v).length = n ∧ ∀ r ∈ chunks k v, r.length = k := by
  unfold chunks
  exact chunks_fuel_spec k hk n v.length v hv (by rw [hv]; exact Nat.le_mul_of_pos_right n hk)

/-- Option-valued traversal: a PyTorch op applied across a tensor axis raises
(returns `none`) as soon as it raises on one slice. -/
def traverseO {α β : Type} (f : α → Option β) : List α → Option (List β)
  | [] => some []
  | a :: as =>
    Option.bind (f a) (fun b => Option.bind (traverseO f as) (fun bs => some (b :: bs)))

theorem traverseO_map {α β : Type} (f : α → Option β) (g : α → β) (l : List α)
    (h : ∀ a ∈ l, f a = some (g a)) : traverseO f l = some (l.map g) := by
  induction l with
  | nil => rfl
  | cons a as ih =>
    have ha := h a (List.mem_cons_self a as)
    have hrest := ih (fun x hx => h x (List.mem_cons_of_mem a hx))
    simp [traverseO, ha, hrest]

/-- Rectangularity of a 2-D tensor slice: `n` rows of `c` entries. -/
def Rect2 (n c : ℕ) (t : List (List ℝ)) : Prop :=
  t.length = n ∧ ∀ r ∈ t, r.length = c

/-- Rectangularity of a 3-D tensor: `b` slices, each `n × c`. -/
def Rect3 (b n c : ℕ) (t : List (List (List ℝ))) : Prop :=
  t.length = b ∧ ∀ u ∈ t, Rect2 n c u

/-! ### the mask application of MultiHeadAttention.forward -/

/-- The mask application of `MultiHeadAttention.forward` (train_IC.py lines
144-147): a 2-dim `(batch, key)` mask is unsqueezed to `(batch, 1, key, 1)`
and `attention.masked_fill(mask, float("-inf"))` writes `-inf` at every score
whose mask entry is True, broadcasting over the query and head axes.  `-inf`
is `⊥ : WithBot ℝ`.  The 4-D score tensor is represented with axes ordered
(batch, query, head, key) — the transpose of the source's `bnmh` layout — so
the key axis (softmax axis, source `dim=2`) is innermost. -/
def masked_fill (att : List (List (List (List ℝ))))
    (maskOpt : Option (List (List Bool))) : List (List (List (List (WithBot ℝ)))) :=
  match maskOpt with
  | none => att.map (fun a => a.map (fun qr => qr.map (fun hr =>
      hr.map (fun v => ((v : ℝ) : WithBot ℝ)))))
  | some mask =>
      List.zipWith (fun mrow a => a.map (fun qr => qr.map (fun hr =>
        List.zipWith (fun (mv : Bool) (v : ℝ) =>
          if mv then (⊥ : WithBot ℝ) else (v : WithBot ℝ)) mrow hr))) mask att

/-- Modelled from the spec (section 4.1) for the C2 refinement check: "set
scores to −∞ at masked-out key positions before softmax", where a mask entry
0/False marks a masked-out (padding) position and 1/True marks an attendable
one — i.e. fill where the mask is False and keep the score where it is True. -/
def masked_fill_spec_version (att : List (List (List (List ℝ))))
    (maskOpt : Option (List (List Bool))) : List (List (List (List (WithBot ℝ)))) :=
  match maskOpt with
  | none => att.map (fun a => a.map (fun qr => qr.map (fun hr =>
      hr.map (fun v => ((v : ℝ) : WithBot ℝ)))))
  | some mask =>
      List.zipWith (fun mrow a => a.map (fun qr => qr.map (fun hr =>
        List.zipWith (fun (mv : Bool) (v : ℝ) =>
          if mv then (v : WithBot ℝ) else (⊥ : WithBot ℝ)) mrow hr))) mask att

/-- Counterexample for C2: a single score 2 at a key position whose mask entry
is True (= 1 = real content, attendable).  The code writes −∞ there; the
claim says the score is left unchanged, as `masked_fill_spec_version` does.
So the code's fill polarity is the opposite of the claimed one. -/
theorem masked_fill_polarity_cex :
    masked_fill [[[[ (2 : ℝ) ]]]] (some [[true]]) = [[[[ (⊥ : WithBot ℝ) ]]]]
    ∧ masked_fill_spec_version [[[[ (2 : ℝ) ]]]] (some [[true]]) =
        [[[[ ((2 : ℝ) : WithBot ℝ) ]]]]
    ∧ masked_fill [[[[ (2 : ℝ) ]]]] (some [[true]]) ≠
        masked_fill_spec_version [[[[ (2 : ℝ) ]]]] (some [[true]]) := by
  refine ⟨rfl, rfl, ?_⟩
  intro h
  have := congrArg (fun t => (((t.headD []).headD []).headD []).headD 0) h
  simp [masked_fill, masked_fill_spec_version] at this

/-- Entry of a 4-D score tensor at (batch, query, head, key). -/
def get4 (t : List (List (List (List (WithBot ℝ))))) (bi ni hi mi : ℕ) : WithBot ℝ :=
  (((t.getD bi []).getD ni []).getD hi []).getD mi 0

/-- Entry of the raw (pre-fill) 4-D score tensor at (batch, query, head, key). -/
def get4R (t : List (List (List (List ℝ)))) (bi ni hi mi : ℕ) : ℝ :=
  (((t.getD bi []).getD ni []).getD hi []).getD mi 0

/-- C2 amended: with a 2-dim boolean mask, the pre-softmax score at
(batch `bi`, query `ni`, head `hi`, key `mi`) is set to −∞ exactly when the
mask entry `mask[bi][mi]` is True (nonzero, i.e. the positions marked 1), and
left unchanged when the entry is False (0) — the reverse polarity of the
claim; the fill broadcasts across heads and query positions (the outcome
depends only on `bi` and `mi`). -/
theorem masked_fill_amended (att : List (List (List (List ℝ))))
    (mask : List (List Bool)) (bi ni hi mi : ℕ)
    (hb : bi < att.length) (hbm : bi < mask.length)
    (hn : ni < (att.getD bi []).length)
    (hh : hi < ((att.getD bi []).getD ni []).length)
    (hm : mi < (((att.getD bi []).getD ni []).getD hi []).length)
    (hm2 : mi < (mask.getD bi []).length) :
    get4 (masked_fill att (some mask)) bi ni hi mi =
      if (mask.getD bi []).getD mi false = true then (⊥ : WithBot ℝ)
      else ((get4R att bi ni hi mi : ℝ) : WithBot ℝ) := by
  unfold get4 get4R masked_fill
  rw [List.getD_eq_getElem mask _ hbm] at hm2 ⊢
  rw [List.getD_eq_getElem att _ hb] at hn hh hm ⊢
  rw [List.getD_eq_getElem _ _ hn] at hh hm ⊢
  rw [List.getD_eq_getElem _ _ hh] at hm ⊢
  have hbz : bi < (List.zipWith
      (fun mrow a => a.map (fun qr => qr.map (fun hr =>
        List.zipWith (fun (mv : Bool) (v : ℝ) =>
          if mv then (⊥ : WithBot ℝ) else (v : WithBot ℝ)) mrow hr))) mask att).length := by
    rw [List.length_zipWith]
    exact lt_min hbm hb
  rw [List.getD_eq_getElem _ _ hbz, List.getElem_zipWith]
  have hn2 : ni < ((att[bi]).map (fun qr => qr.map (fun hr =>
      List.zipWith (fun (mv : Bool) (v : ℝ) =>
        if mv then (⊥ : WithBot ℝ) else (v : WithBot ℝ)) mask[bi] hr))).length := by
    rw [List.length_map]; exact hn
  rw [List.getD_eq_getElem _ _ hn2, List.getElem_map]
  have hh2 : hi < ((att[bi][ni]).map (fun hr =>
      List.zipWith (fun (mv : Bool) (v : ℝ) =>
        if mv then (⊥ : WithBot ℝ) else (v : WithBot ℝ)) mask[bi] hr)).length := by
    rw [List.length_map]; exact hh
  rw [List.getD_eq_getElem _ _ hh2, List.getElem_map]
  have hm3 : mi < (List.zipWith (fun (mv : Bool) (v : ℝ) =>
      if mv then (⊥ : WithBot ℝ) else (v : WithBot ℝ)) mask[bi] att[bi][ni][hi]).length := by
    rw [List.length_zipWith]
    exact lt_min hm2 hm
  rw [List.getD_eq_getElem _ _ hm3, List.getElem_zipWith,
    List.getD_eq_getElem _ _ hm, List.getD_eq_getElem _ _ hm2]

/-- Witness for the C2 amended theorem at a concrete 1×1×1×2 score tensor
with mask row `[true, false]`: the True (attendable, 1) key position is
filled with −∞ and the False (padding, 0) key position keeps its score. -/
theorem masked_fill_amended_witness :
    (0 : ℕ) < ([[[[ (2 : ℝ), 3 ]]]] : List (List (List (List ℝ)))).length
    ∧ get4 (masked_fill [[[[ (2 : ℝ), 3 ]]]] (some [[true, false]])) 0 0 0 0 =
        (if ([[true, false]].getD 0 []).getD 0 false = true then (⊥ : WithBot ℝ)
         else ((get4R [[[[ (2 : ℝ), 3 ]]]] 0 0 0 0 : ℝ) : WithBot ℝ))
    ∧ get4 (masked_fill [[[[ (2 : ℝ), 3 ]]]] (some [[true, false]])) 0 0 0 1 =
        (if ([[true, false]].getD 0 []).getD 1 false = true then (⊥ : WithBot ℝ)
         else ((get4R [[[[ (2 : ℝ), 3 ]]]] 0 0 0 1 : ℝ) : WithBot ℝ)) :=
  ⟨by decide,
    masked_fill_amended [[[[ (2 : ℝ), 3 ]]]] [[true, false]] 0 0 0 0
      (by decide) (by decide) (by decide) (by decide) (by decide) (by decide),
    masked_fill_amended [[[[ (2 : ℝ), 3 ]]]] [[true, false]] 0 0 0 1
      (by decide) (by decide) (by decide) (by decide) (by decide) (by decide)⟩

/-! ### MultiHeadAttention (train_IC.py lines 122-151) -/

structure MultiHeadAttentionCfg where
  num_heads : ℕ
  head_dim : ℕ
  scale : ℝ
  to_queries : LinearLayer
  to_keys_values : LinearLayer
  project : LinearLayer

/-- `to_queries(x).reshape(b, n, num_heads, c // num_heads)` per position:
torch `reshape` raises unless the element count matches, i.e. unless the
position's `dim_self`-sized vector splits evenly into `h` heads of `dh`. -/
def split_heads (h dh : ℕ) (v : List ℝ) : Option (List (List ℝ)) :=
  if v.length = h * dh then some (chunks dh v) else none

/-- `to_keys_values(y).reshape(b, m, 2, num_heads, c // num_heads)` per
position, then `keys = kv[:, :, 0]`, `values = kv[:, :, 1]`: the first
`h · dh` entries are the key heads, the rest the value heads. -/
def split_kv (h dh : ℕ) (v : List ℝ) : Option (List (List ℝ) × List (List ℝ)) :=
  if v.length = 2 * (h * dh) then
    some (chunks dh (v.take (h * dh)), chunks dh (v.drop (h * dh)))
  else none

/-- `exp` as the float softmax sees scores after `masked_fill`:
`exp(-inf) = 0`. -/
noncomputable def expB : WithBot ℝ → ℝ := WithBot.recBotCoe 0 Real.exp

/-- `softmax(dim=2)` over one key row of the (batch, query, head, key)-ordered
score tensor. -/
noncomputable def softmax_keys (r : List (WithBot ℝ)) : List ℝ :=
  let e := r.map expB
  e.map (fun v => v / e.sum)

/-- One head's slice of `torch.einsum('bnmh,bmhd->bnhd', attention, values)`:
the attention-weighted sum of that head's value rows. -/
def weighted_sum (dh : ℕ) (ws : List ℝ) (vs : List (List ℝ)) : List ℝ :=
  (List.zipWith (fun w v => v.map (fun t => w * t)) ws vs).foldl
    (fun acc v => List.zipWith (fun x y => x + y) acc v) (List.replicate dh 0)

/-- MultiHeadAttention.forward (train_IC.py lines 134-151).  `y` defaults to
`x`; `c` is `x.shape[2]` (the channel count of the first position, the shapes
being rectangular in torch); queries/keys/values are produced by the two
linear maps followed by the head-split reshapes (whose failure is `none`);
scores are `dot(q, k) * scale` per (batch, query, head, key); the optional
mask is applied by `masked_fill`; softmax runs over the key axis; the output
concatenates the per-head weighted value sums back to `c` channels and applies
the output projection.  Returns (output, attention weights). -/
noncomputable def mha_forward (cfg : MultiHeadAttentionCfg)
    (x : List (List (List ℝ))) (yOpt : Option (List (List (List ℝ))))
    (maskOpt : Option (List (List Bool))) :
    Option (List (List (List ℝ)) × List (List (List (List ℝ)))) :=
  Option.bind (traverseO (fun xb => traverseO (fun xi =>
      split_heads cfg.num_heads (((x.headD []).headD []).length / cfg.num_heads)
        (linearApply cfg.to_queries xi)) xb) x) (fun queries =>
  Option.bind (traverseO (fun yb => traverseO (fun yi =>
      split_kv cfg.num_heads (((x.headD []).headD []).length / cfg.num_heads)
        (linearApply cfg.to_keys_values yi)) yb) (yOpt.getD x)) (fun kv =>
  let keys := kv.map (fun row => row.map Prod.fst)
  let values := kv.map (fun row => row.map Prod.snd)
  let att := List.zipWith (fun qb kb => qb.map (fun qn =>
      (List.range cfg.num_heads).map (fun hi =>
        kb.map (fun km => dotR (qn.getD hi []) (km.getD hi []) * cfg.scale))))
    queries keys
  let attS := (masked_fill att maskOpt).map (fun a => a.map (fun qr => qr.map softmax_keys))
  let outC := List.zipWith (fun ab vb => ab.map (fun qrow =>
      ((List.range cfg.num_heads).map (fun hi =>
        weighted_sum (((x.headD []).headD []).length / cfg.num_heads)
          (qrow.getD hi []) (vb.map (fun vm => vm.getD hi [])))).flatten))
    attS values
  some (outC.map (fun rows => rows.map (linearApply cfg.project)), attS)))

theorem mem_zipWith {α β γ : Type} (f : α → β → γ) :
    ∀ (l1 : List α) (l2 : List β) (c : γ), c ∈ List.zipWith f l1 l2 →
      ∃ a ∈ l1, ∃ b ∈ l2, c = f a b := by
  intro l1
  induction l1 with
  | nil => intro l2 c hc; simp at hc
  | cons a as ih =>
    intro l2 c hc
    cases l2 with
    | nil => simp at hc
    | cons b bs =>
      simp only [List.zipWith_cons_cons] at hc
      rcases List.mem_cons.1 hc with rfl | hc2
      · exact ⟨a, List.mem_cons_self a as, b, List.mem_cons_self b bs, rfl⟩
      · obtain ⟨a2, ha2, b2, hb2, rfl⟩ := ih bs c hc2
        exact ⟨a2, List.mem_cons_of_mem a ha2, b2, List.mem_cons_of_mem b hb2, rfl⟩

theorem mem_map_len {γ : Type} (g : γ → List ℝ) (l : List γ) (k : ℕ)
    (h : ∀ a ∈ l, (g a).length = k) : ∀ r ∈ l.map g, r.length = k := by
  intro r hr
  obtain ⟨a, ha, rfl⟩ := List.mem_map.1 hr
  exact h a ha

theorem flatten_const_length {α : Type} (k : ℕ) (l : List (List α))
    (h : ∀ r ∈ l, r.length = k) : l.flatten.length = l.length * k := by
  induction l with
  | nil => simp
  | cons r rs ih =>
    simp only [List.flatten_cons, List.length_append, List.length_cons]
    rw [h r (List.mem_cons_self r rs), ih (fun u hu => h u (List.mem_cons_of_mem r hu))]
    ring

/-- Shape well-formedness of an attention block for square `c → c`
self/cross attention. -/
def Wf_mha (c : ℕ) (cfg : MultiHeadAttentionCfg) : Prop :=
  0 < cfg.num_heads ∧ cfg.num_heads ∣ c ∧
  Wf_lin_out c cfg.to_queries ∧ Wf_lin_out (2 * c) cfg.to_keys_values ∧
  Wf_lin_out c cfg.project

theorem rect3_head_len (b n c : ℕ) (x : List (List (List ℝ)))
    (hx : Rect3 b n c x) (hb : 0 < b) (hn : 0 < n) :
    ((x.headD []).headD []).length = c := by
  obtain ⟨hxl, hxr⟩ := hx
  cases x with
  | nil => simp at hxl; omega
  | cons x0 xs =>
    obtain ⟨h0l, h0r⟩ := hxr x0 (List.mem_cons_self x0 xs)
    cases x0 with
    | nil => simp at h0l; omega
    | cons v vs =>
      exact h0r v (List.mem_cons_self v vs)

theorem mha_forward_shape (cfg : MultiHeadAttentionCfg) (b n m c : ℕ)
    (x : List (List (List ℝ))) (yOpt : Option (List (List (List ℝ))))
    (maskOpt : Option (List (List Bool)))
    (hwf : Wf_mha c cfg) (hx : Rect3 b n c x)
    (hy : Rect3 b m c (yOpt.getD x))
    (hb : 0 < b) (hn : 0 < n) (hc : 0 < c)
    (hmask : ∀ mk, maskOpt = some mk → mk.length = b) :
    ∃ r, mha_forward cfg x yOpt maskOpt = some r ∧ Rect3 b n c r.1 := by
  obtain ⟨hh, hdvd, hq, hkv, hp⟩ := hwf
  have hcread : ((x.headD []).headD []).length = c := rect3_head_len b n c x hx hb hn
  have hmul : cfg.num_heads * (c / cfg.num_heads) = c := Nat.mul_div_cancel' hdvd
  have hdh : 0 < c / cfg.num_heads := Nat.div_pos (Nat.le_of_dvd hc hdvd) hh
  unfold mha_forward
  rw [hcread]
  -- the query traversal succeeds
  have hq_eq : traverseO (fun xb => traverseO (fun xi =>
      split_heads cfg.num_heads (c / cfg.num_heads) (linearApply cfg.to_queries xi)) xb) x =
      some (x.map (fun xb => xb.map (fun xi =>
        chunks (c / cfg.num_heads) (linearApply cfg.to_queries xi)))) := by
    apply traverseO_map
    intro xb hxb
    apply traverseO_map
    intro xi _
    unfold split_heads
    rw [if_pos]
    rw [linearApply_length c cfg.to_queries hq, hmul]
  -- the key/value traversal succeeds
  have hkv_eq : traverseO (fun yb => traverseO (fun yi =>
      split_kv cfg.num_heads (c / cfg.num_heads) (linearApply cfg.to_keys_values yi)) yb)
        (yOpt.getD x) =
      some ((yOpt.getD x).map (fun yb => yb.map (fun yi =>
        (chunks (c / cfg.num_heads)
            ((linearApply cfg.to_keys_values yi).take (cfg.num_heads * (c / cfg.num_heads))),
         chunks (c / cfg.num_heads)
            ((linearApply cfg.to_keys_values yi).drop (cfg.num_heads * (c / cfg.num_heads))))))) := by
    apply traverseO_map
    intro yb hyb
    apply traverseO_map
    intro yi _
    unfold split_kv
    rw [if_pos]
    rw [linearApply_length (2 * c) cfg.to_keys_values hkv, hmul]
  rw [hq_eq, Option.some_bind, hkv_eq, Option.some_bind]
  refine ⟨_, rfl, ?_⟩
  -- shapes
  set dh := c / cfg.num_heads with hdhdef
  set qs := x.map (fun xb => xb.map (fun xi => chunks dh (linearApply cfg.to_queries xi)))
    with hqs
  set kvs := (yOpt.getD x).map (fun yb => yb.map (fun yi =>
      (chunks dh ((linearApply cfg.to_keys_values yi).take (cfg.num_heads * dh)),
       chunks dh ((linearApply cfg.to_keys_values yi).drop (cfg.num_heads * dh))))) with hkvs
  -- facts about the query scores tensor
  have hqs_len : qs.length = b := by rw [hqs, List.length_map, hx.1]
  have hqs_rows : ∀ qb ∈ qs, qb.length = n := by
    intro qb hqb
    rw [hqs] at hqb
    obtain ⟨xb, hxb, rfl⟩ := List.mem_map.1 hqb
    rw [List.length_map]
    exact (hx.2 xb hxb).1
  have hkvs_len : kvs.length = b := by rw [hkvs, List.length_map, hy.1]
  -- attention scores
  have hatt_len : (List.zipWith (fun qb kb => qb.map (fun qn =>
      (List.range cfg.num_heads).map (fun hi =>
        kb.map (fun km => dotR (qn.getD hi []) (km.getD hi []) * cfg.scale)))) qs
        (kvs.map (fun row => row.map Prod.fst))).length = b := by
    rw [List.length_zipWith, hqs_len, List.length_map, hkvs_len]
    simp
  have hatt_rows : ∀ ab ∈ (List.zipWith (fun qb kb => qb.map (fun qn =>
      (List.range cfg.num_heads).map (fun hi =>
        kb.map (fun km => dotR (qn.getD hi []) (km.getD hi []) * cfg.scale)))) qs
        (kvs.map (fun row => row.map Prod.fst))), ab.length = n := by
    intro ab hab
    obtain ⟨qb, hqb, kb, _, rfl⟩ := mem_zipWith _ _ _ ab hab
    rw [List.length_map]
    exact hqs_rows qb hqb
  -- attention weights after mask + softmax
  have hattS_len : ((masked_fill (List.zipWith (fun qb kb => qb.map (fun qn =>
      (List.range cfg.num_heads).map (fun hi =>
        kb.map (fun km => dotR (qn.getD hi []) (km.getD hi []) * cfg.scale)))) qs
        (kvs.map (fun row => row.map Prod.fst))) maskOpt).map
        (fun a => a.map (fun qr => qr.map softmax_keys))).length = b := by
    rw [List.length_map]
    cases maskOpt with
    | none => rw [masked_fill, List.length_map, hatt_len]
    | some mk =>
      rw [masked_fill, List.length_zipWith, hmask mk rfl, hatt_len]
      simp
  have hattS_rows : ∀ ab ∈ ((masked_fill (List.zipWith (fun qb kb => qb.map (fun qn =>
      (List.range cfg.num_heads).map (fun hi =>
        kb.map (fun km => dotR (qn.getD hi []) (km.getD hi []) * cfg.scale)))) qs
        (kvs.map (fun row => row.map Prod.fst))) maskOpt).map
        (fun a => a.map (fun qr => qr.map softmax_keys))), ab.length = n := by
    intro ab hab
    obtain ⟨a2, ha2, rfl⟩ := List.mem_map.1 hab
    rw [List.length_map]
    cases maskOpt with
    | none =>
      rw [masked_fill] at ha2
      obtain ⟨a3, ha3, rfl⟩ := List.mem_map.1 ha2
      rw [List.length_map]
      exact hatt_rows a3 ha3
    | some mk =>
      rw [masked_fill] at ha2
      obtain ⟨mrow, _, a3, ha3, rfl⟩ := mem_zipWith _ _ _ a2 ha2
      rw [List.length_map]
      exact hatt_rows a3 ha3
  constructor
  · rw [List.length_map, List.length_zipWith, hattS_len, List.length_map, hkvs_len]
    simp
  · intro u hu
    obtain ⟨w, hw, rfl⟩ := List.mem_map.1 hu
    obtain ⟨ab, hab, vb, hvb, rfl⟩ := mem_zipWith _ _ _ w hw
    constructor
    · rw [List.length_map, List.length_map]
      exact hattS_rows ab hab
    · apply mem_map_len
      intro qrow _
      exact linearApply_length c cfg.project hp qrow

/-! ### TransformerLayer, Transformer, TransformerMapper, MLP
(train_IC.py lines 89-101, 154-237) -/

/-- `nn.LayerNorm(dim_self)` with torch's default `eps = 1e-5`, biased
variance, and learned elementwise affine weights `g`/`bet`. -/
noncomputable def layer_norm (g bet v : List ℝ) : List ℝ :=
  List.zipWith (fun t gb => (t - v.sum / v.length) /
      Real.sqrt ((v.map (fun u => (u - v.sum / v.length) ^ 2)).sum / v.length + 1 / 100000)
      * gb.1 + gb.2)
    v (g.zip bet)

theorem layer_norm_length (c : ℕ) (g bet v : List ℝ)
    (hg : g.length = c) (hb : bet.length = c) (hv : v.length = c) :
    (layer_norm g bet v).length = c := by
  unfold layer_norm
  rw [List.length_zipWith, List.length_zip, hg, hb, hv]
  simp

/-- MlpTransformer.forward (train_IC.py 104-119) with `act = relu` and
`dropout = 0` (`nn.Dropout(0)` is the identity). -/
noncomputable def mlp_trans_forward (fc1 fc2 : LinearLayer) (v : List ℝ) : List ℝ :=
  linearApply fc2 ((linearApply fc1 v).map (fun t => max t 0))

/-- Elementwise tensor addition (the residual connections). -/
def add3 (x y : List (List (List ℝ))) : List (List (List ℝ)) :=
  List.zipWith (fun a2 b2 =>
    List.zipWith (fun r s => List.zipWith (fun u w => u + w) r s) a2 b2) x y

theorem add3_rect (b n c : ℕ) (x y : List (List (List ℝ)))
    (hx : Rect3 b n c x) (hy : Rect3 b n c y) : Rect3 b n c (add3 x y) := by
  constructor
  · rw [add3, List.length_zipWith, hx.1, hy.1]; simp
  · intro u hu
    obtain ⟨a2, ha2, b2, hb2, rfl⟩ := mem_zipWith _ _ _ u hu
    constructor
    · rw [List.length_zipWith, (hx.2 a2 ha2).1, (hy.2 b2 hb2).1]; simp
    · intro r hr
      obtain ⟨r1, hr1, r2, hr2, rfl⟩ := mem_zipWith _ _ _ r hr
      rw [List.length_zipWith, (hx.2 a2 ha2).2 r1 hr1, (hy.2 b2 hb2).2 r2 hr2]; simp

structure TransformerLayerCfg where
  norm1_g : List ℝ
  norm1_b : List ℝ
  norm2_g : List ℝ
  norm2_b : List ℝ
  attn : MultiHeadAttentionCfg
  fc1 : LinearLayer
  fc2 : LinearLayer

/-- TransformerLayer.forward (train_IC.py 162-165):
`x = x + attn(norm1(x), y, mask)[0]`; `x = x + mlp(norm2(x))`. -/
noncomputable def transformer_layer_forward (L : TransformerLayerCfg)
    (x : List (List (List ℝ))) (yOpt : Option (List (List (List ℝ))))
    (maskOpt : Option (List (List Bool))) : Option (List (List (List ℝ))) :=
  Option.bind (mha_forward L.attn
      (x.map (fun rows => rows.map (layer_norm L.norm1_g L.norm1_b))) yOpt maskOpt)
    (fun a =>
      some (add3 (add3 x a.1) ((add3 x a.1).map (fun rows => rows.map (fun v =>
        mlp_trans_forward L.fc1 L.fc2 (layer_norm L.norm2_g L.norm2_b v))))))

/-- Shape well-formedness of one transformer layer at width `c`. -/
def Wf_layer (c : ℕ) (L : TransformerLayerCfg) : Prop :=
  L.norm1_g.length = c ∧ L.norm1_b.length = c ∧ L.norm2_g.length = c ∧
  L.norm2_b.length = c ∧ Wf_mha c L.attn ∧ Wf_lin_out c L.fc2

theorem transformer_layer_shape (L : TransformerLayerCfg) (b n c : ℕ)
    (x : List (List (List ℝ))) (hwf : Wf_layer c L) (hx : Rect3 b n c x)
    (hb : 0 < b) (hn : 0 < n) (hc : 0 < c) :
    ∃ out, transformer_layer_forward L x none none = some out ∧ Rect3 b n c out := by
  obtain ⟨h1g, h1b, h2g, h2b, hattn, hfc2⟩ := hwf
  have hnormed : Rect3 b n c
      (x.map (fun rows => rows.map (layer_norm L.norm1_g L.norm1_b))) := by
    constructor
    · rw [List.length_map, hx.1]
    · intro u hu
      obtain ⟨rows, hrows, rfl⟩ := List.mem_map.1 hu
      constructor
      · rw [List.length_map, (hx.2 rows hrows).1]
      · apply mem_map_len
        intro v hv
        exact layer_norm_length c _ _ v h1g h1b ((hx.2 rows hrows).2 v hv)
  obtain ⟨r, hr, hrect⟩ := mha_forward_shape L.attn b n n c _ none none hattn hnormed
    hnormed hb hn hc (fun mk hmk => Option.noConfusion hmk)
  unfold transformer_layer_forward
  rw [hr, Option.some_bind]
  refine ⟨_, rfl, ?_⟩
  have hx1 : Rect3 b n c (add3 x r.1) := add3_rect b n c x r.1 hx hrect
  apply add3_rect b n c _ _ hx1
  constructor
  · rw [List.length_map, hx1.1]
  · intro u hu
    obtain ⟨rows, hrows, rfl⟩ := List.mem_map.1 hu
    constructor
    · rw [List.length_map, (hx1.2 rows hrows).1]
    · apply mem_map_len
      intro v _
      exact linearApply_length c L.fc2 hfc2 _

structure TransformerCfg where
  enc_dec : Bool
  layers : List TransformerLayerCfg

/-- Transformer.forward (train_IC.py 185-193): per layer index `i`, when
`enc_dec` is set, even layers cross-attend (`layer(x, y)`, no mask) and odd
layers self-attend with the mask; otherwise (the mapper's configuration)
every layer runs `layer(x, y, mask)`. -/
noncomputable def transformer_forward_aux (enc_dec : Bool)
    (yOpt : Option (List (List (List ℝ)))) (maskOpt : Option (List (List Bool))) :
    List TransformerLayerCfg → ℕ → List (List (List ℝ)) → Option (List (List (List ℝ)))
  | [], _, x => some x
  | L :: rest, i, x =>
    Option.bind
      (if i % 2 == 0 && enc_dec then transformer_layer_forward L x yOpt none
       else if enc_dec then transformer_layer_forward L x (some x) maskOpt
       else transformer_layer_forward L x yOpt maskOpt)
      (fun x2 => transformer_forward_aux enc_dec yOpt maskOpt rest (i + 1) x2)

noncomputable def transformer_forward (T : TransformerCfg)
    (x : List (List (List ℝ))) (yOpt : Option (List (List (List ℝ))))
    (maskOpt : Option (List (List Bool))) : Option (List (List (List ℝ))) :=
  transformer_forward_aux T.enc_dec yOpt maskOpt T.layers 0 x

theorem transformer_aux_shape (b n c : ℕ) (hb : 0 < b) (hn : 0 < n) (hc : 0 < c) :
    ∀ (layers : List TransformerLayerCfg) (i : ℕ) (x : List (List (List ℝ))),
      (∀ L ∈ layers, Wf_layer c L) → Rect3 b n c x →
      ∃ out, transformer_forward_aux false none none layers i x = some out ∧
        Rect3 b n c out := by
  intro layers
  induction layers with
  | nil => intro i x _ hx; exact ⟨x, rfl, hx⟩
  | cons L rest ih =>
    intro i x hwf hx
    obtain ⟨o1, ho1, hr1⟩ := transformer_layer_shape L b n c x
      (hwf L (List.mem_cons_self L rest)) hx hb hn hc
    obtain ⟨o2, ho2, hr2⟩ := ih (i + 1) o1
      (fun L2 h2 => hwf L2 (List.mem_cons_of_mem L h2)) hr1
    refine ⟨o2, ?_, hr2⟩
    have hstep : transformer_forward_aux false none none (L :: rest) i x =
        Option.bind (transformer_layer_forward L x none none)
          (fun x2 => transformer_forward_aux false none none rest (i + 1) x2) := by
      simp [transformer_forward_aux]
    rw [hstep, ho1, Option.some_bind, ho2]

structure TransformerMapperCfg where
  clip_length : ℕ
  transformer : TransformerCfg
  linear : LinearLayer
  pfx_const : List (List ℝ)

/-- TransformerMapper.forward (train_IC.py 218-227):
`x = self.linear(x).view(x.shape[0], self.clip_length, -1)` (the inferred
last dimension makes the `view` raise unless `clip_length` divides each
element's size); `prefix = prefix_const` expanded over the batch;
`out = self.transformer(torch.cat((x, prefix), dim=1))[:, self.clip_length:]`.
`pfx_const` is the learned constant `prefix_const`
(`prefix_length × dim_embedding` rows). -/
noncomputable def transformer_mapper_forward (M : TransformerMapperCfg)
    (x : List (List ℝ)) : Option (List (List (List ℝ))) :=
  Option.bind (traverseO (fun v =>
      if 0 < M.clip_length ∧
          M.clip_length * ((linearApply M.linear v).length / M.clip_length) =
            (linearApply M.linear v).length then
        some (chunks ((linearApply M.linear v).length / M.clip_length)
          (linearApply M.linear v))
      else none) x)
    (fun xv =>
      Option.bind (transformer_forward M.transformer
          (xv.map (fun rows => rows ++ M.pfx_const)) none none)
        (fun out => some (out.map (fun rows => rows.drop M.clip_length))))

/-- Shape well-formedness of a TransformerMapper producing `pl` vectors of
width `emb` (the mapper's `Transformer(dim_embedding, 8, num_layers)` is
built with `enc_dec = False`). -/
def Wf_mapper (pl emb : ℕ) (M : TransformerMapperCfg) : Prop :=
  0 < M.clip_length ∧ 0 < emb ∧ M.transformer.enc_dec = false ∧
  (∀ L ∈ M.transformer.layers, Wf_layer emb L) ∧
  Wf_lin_out (M.clip_length * emb) M.linear ∧
  M.pfx_const.length = pl ∧ (∀ r ∈ M.pfx_const, r.length = emb)

theorem transformer_mapper_shape (M : TransformerMapperCfg) (pl emb : ℕ)
    (x : List (List ℝ)) (hwf : Wf_mapper pl emb M) (hb : 0 < x.length) :
    ∃ out, transformer_mapper_forward M x = some out ∧
      Rect3 x.length pl emb out := by
  obtain ⟨hcl, hemb, henc, hlayers, hlin, hpl, hpr⟩ := hwf
  have hlv : ∀ v, (linearApply M.linear v).length = M.clip_length * emb :=
    linearApply_length _ _ hlin
  have htrav : traverseO (fun v =>
      if 0 < M.clip_length ∧
          M.clip_length * ((linearApply M.linear v).length / M.clip_length) =
            (linearApply M.linear v).length then
        some (chunks ((linearApply M.linear v).length / M.clip_length)
          (linearApply M.linear v))
      else none) x = some (x.map (fun v => chunks emb (linearApply M.linear v))) := by
    apply traverseO_map
    intro v _
    have hdiveq : (linearApply M.linear v).length / M.clip_length = emb := by
      rw [hlv]
      exact Nat.mul_div_cancel_left emb hcl
    rw [if_pos ⟨hcl, by rw [hdiveq, hlv]⟩, hdiveq]
  unfold transformer_mapper_forward
  rw [htrav, Option.some_bind]
  have hcat : Rect3 x.length (M.clip_length + pl) emb
      ((x.map (fun v => chunks emb (linearApply M.linear v))).map
        (fun rows => rows ++ M.pfx_const)) := by
    constructor
    · rw [List.length_map, List.length_map]
    · intro u hu
      obtain ⟨rows, hrows, rfl⟩ := List.mem_map.1 hu
      obtain ⟨v, _, rfl⟩ := List.mem_map.1 hrows
      have hch := chunks_spec emb M.clip_length hemb (linearApply M.linear v) (hlv v)
      constructor
      · rw [List.length_append, hch.1, hpl]
      · intro r hr
        rcases List.mem_append.1 hr with hr1 | hr2
        · exact hch.2 r hr1
        · exact hpr r hr2
  obtain ⟨out, hout, hrout⟩ := transformer_aux_shape x.length (M.clip_length + pl) emb
    hb (by omega) hemb M.transformer.layers 0 _ hlayers hcat
  have hfwd : transformer_forward M.transformer
      ((x.map (fun v => chunks emb (linearApply M.linear v))).map
        (fun rows => rows ++ M.pfx_const)) none none = some out := by
    unfold transformer_forward
    rw [henc]
    exact hout
  rw [hfwd, Option.some_bind]
  refine ⟨_, rfl, ?_⟩
  constructor
  · rw [List.length_map, hrout.1]
  · intro u hu
    obtain ⟨rows, hrows, rfl⟩ := List.mem_map.1 hu
    constructor
    · rw [List.length_drop, (hrout.2 rows hrows).1]
      omega
    · intro r hr
      exact (hrout.2 rows hrows).2 r (List.drop_subset _ _ hr)

/-- MLP.forward (train_IC.py 89-101): `nn.Sequential` of linear layers with
the activation (`nn.Tanh`) after every layer but the last. -/
noncomputable def mlp_forward : List LinearLayer → List ℝ → List ℝ
  | [], v => v
  | [L], v => linearApply L v
  | L :: L2 :: rest, v => mlp_forward (L2 :: rest) ((linearApply L v).map Real.tanh)

theorem mlp_forward_length (dout : ℕ) :
    ∀ (layers : List LinearLayer) (h : layers ≠ [])
      (hl : Wf_lin_out dout (layers.getLast h)) (v : List ℝ),
      (mlp_forward layers v).length = dout := by
  intro layers
  induction layers with
  | nil => intro h; exact absurd rfl h
  | cons L rest ih =>
    intro h hl v
    cases rest with
    | nil => exact linearApply_length dout L hl v
    | cons L2 r2 =>
      have hlast : (L :: L2 :: r2).getLast h = (L2 :: r2).getLast (by simp) :=
        List.getLast_cons _
      rw [hlast] at hl
      exact ih (by simp) hl _

theorem chunks_fuel_mem {α : Type} (k : ℕ) :
    ∀ (fuel : ℕ) (v r : List α), r ∈ chunks_fuel k fuel v → ∀ a ∈ r, a ∈ v := by
  intro fuel
  induction fuel with
  | zero => intro v r hr; simp [chunks_fuel] at hr
  | succ m ih =>
    intro v r hr a ha
    simp only [chunks_fuel] at hr
    by_cases he : v.isEmpty = true
    · rw [if_pos he] at hr; simp at hr
    · rw [if_neg he] at hr
      rcases List.mem_cons.1 hr with rfl | hr2
      · exact List.take_subset k v ha
      · exact List.drop_subset k v (ih (v.drop k) r hr2 a ha)

theorem chunks_mem {α : Type} (k : ℕ) (v r : List α)
    (hr : r ∈ chunks k v) : ∀ a ∈ r, a ∈ v :=
  chunks_fuel_mem k v.length v r hr

/-- `.view(-1, p, e)`: raises unless `p·e` divides the element count,
otherwise regroups the flat buffer into blocks of `p` rows of `e` entries. -/
noncomputable def view3 (p e : ℕ) (flat : List ℝ) : Option (List (List (List ℝ))) :=
  if 0 < p ∧ 0 < e ∧ (p * e) * (flat.length / (p * e)) = flat.length then
    some (chunks p (chunks e flat))
  else none

theorem view3_shape (p e b : ℕ) (flat : List ℝ) (hp : 0 < p) (he : 0 < e)
    (hlen : flat.length = b * (p * e)) :
    ∃ t, view3 p e flat = some t ∧ Rect3 b p e t := by
  have hpe : 0 < p * e := Nat.mul_pos hp he
  have hdvd : (p * e) * (flat.length / (p * e)) = flat.length := by
    rw [hlen, Nat.mul_div_cancel b hpe, Nat.mul_comm]
  unfold view3
  rw [if_pos ⟨hp, he, hdvd⟩]
  have hflat_e : flat.length = (b * p) * e := by rw [hlen]; ring
  have hc1 := chunks_spec e (b * p) he flat hflat_e
  have hc2 := chunks_spec p b hp (chunks e flat) (by rw [hc1.1])
  refine ⟨_, rfl, hc2.1, ?_⟩
  intro u hu
  refine ⟨hc2.2 u hu, ?_⟩
  intro r hr
  exact hc1.2 r (chunks_mem p (chunks e flat) u hu r hr)

/-- The two interchangeable prefix mappers selected by `mapping_type`
(MappingType.MLP / MappingType.Transformer, train_IC.py 262-267). -/
inductive ClipProjectCfg : Type
  | mlp (layers : List LinearLayer)
  | mapper (M : TransformerMapperCfg)

/-- `prefix_projections = self.clip_project(prefix).view(-1,
self.prefix_length, self.gpt_embedding_size)` of ClipCaptionModel.forward
(train_IC.py line 249), for both mapper variants (`pl` = prefix_length,
`emb` = gpt_embedding_size, `x` = the batch of visual embeddings). -/
noncomputable def pref_projections (cp : ClipProjectCfg) (pl emb : ℕ)
    (x : List (List ℝ)) : Option (List (List (List ℝ))) :=
  match cp with
  | ClipProjectCfg.mlp layers => view3 pl emb (x.map (mlp_forward layers)).flatten
  | ClipProjectCfg.mapper M =>
      Option.bind (transformer_mapper_forward M x) (fun out =>
        view3 pl emb (out.map List.flatten).flatten)

/-- C6: for every input batch, the prefix-mapping stage delivers exactly
`prefix_length` vectors of `embedding_dim` width per batch element — shape
(batch, prefix_length, embedding_dim) — for both the MLP variant and the
Transformer variant, regardless of `clip_length`. -/
theorem pref_projections_shape (pl emb : ℕ) (x : List (List ℝ)) :
    (∀ (layers : List LinearLayer) (h : layers ≠ []),
      Wf_lin_out (pl * emb) (layers.getLast h) → 0 < pl → 0 < emb →
      ∃ t, pref_projections (ClipProjectCfg.mlp layers) pl emb x = some t ∧
        Rect3 x.length pl emb t)
    ∧ (∀ M : TransformerMapperCfg, Wf_mapper pl emb M → 0 < pl → 0 < x.length →
      ∃ t, pref_projections (ClipProjectCfg.mapper M) pl emb x = some t ∧
        Rect3 x.length pl emb t) := by
  constructor
  · intro layers h hl hp he
    have hflat : (x.map (mlp_forward layers)).flatten.length = x.length * (pl * emb) := by
      rw [flatten_const_length (pl * emb)]
      · rw [List.length_map]
      · exact mem_map_len _ _ _ (fun v _ => mlp_forward_length (pl * emb) layers h hl v)
    exact view3_shape pl emb x.length _ hp he hflat
  · intro M hwf hp hb
    obtain ⟨out, hout, hrout⟩ := transformer_mapper_shape M pl emb x hwf hb
    have hflat : ((out.map List.flatten).flatten).length = x.length * (pl * emb) := by
      rw [flatten_const_length (pl * emb)]
      · rw [List.length_map, hrout.1]
      · apply mem_map_len
        intro rows hrows
        rw [flatten_const_length emb rows ((hrout.2 rows hrows).2)]
        rw [(hrout.2 rows hrows).1]
    have hv := view3_shape pl emb x.length ((out.map List.flatten).flatten) hp
      hwf.2.1 hflat
    obtain ⟨t, ht, hrt⟩ := hv
    refine ⟨t, ?_, hrt⟩
    show Option.bind (transformer_mapper_forward M x) (fun out =>
      view3 pl emb (out.map List.flatten).flatten) = some t
    rw [hout, Option.some_bind, ht]

/-- A concrete one-layer, one-head, width-1 transformer mapper for the C6
witness: `clip_length = 1`, `prefix_length = 1`, `embedding_dim = 1`. -/
noncomputable def mapper_demo : TransformerMapperCfg :=
  { clip_length := 1
    transformer :=
      { enc_dec := false
        layers := [{ norm1_g := [1], norm1_b := [0], norm2_g := [1], norm2_b := [0]
                     attn := { num_heads := 1, head_dim := 1, scale := 1
                               to_queries := ⟨[[1]], [0]⟩
                               to_keys_values := ⟨[[1], [1]], [0, 0]⟩
                               project := ⟨[[1]], [0]⟩ }
                     fc1 := ⟨[[1], [1]], [0, 0]⟩
                     fc2 := ⟨[[1, 1]], [0]⟩ }] }
    linear := ⟨[[1]], [0]⟩
    pfx_const := [[2]] }

/-- Witness for C6: both mapper variants on concrete one-element batches. -/
theorem pref_projections_shape_witness :
    (∃ t, pref_projections (ClipProjectCfg.mlp [⟨[[1, 1]], [0]⟩, ⟨[[1], [1]], [0, 0]⟩])
        1 2 [[1, 1]] = some t ∧ Rect3 1 1 2 t)
    ∧ (∃ t, pref_projections (ClipProjectCfg.mapper mapper_demo) 1 1 [[3]] = some t ∧
        Rect3 1 1 1 t) := by
  constructor
  · exact (pref_projections_shape 1 2 [[1, 1]]).1
      [⟨[[1, 1]], [0]⟩, ⟨[[1], [1]], [0, 0]⟩] (by simp) ⟨rfl, rfl⟩ (by decide) (by decide)
  · refine (pref_projections_shape 1 1 [[3]]).2 mapper_demo ?_ (by decide) (by decide)
    refine ⟨by decide, by decide, rfl, ?_, ⟨rfl, rfl⟩, rfl, ?_⟩
    · intro L hL
      simp only [mapper_demo, List.mem_singleton] at hL
      subst hL
      exact ⟨rfl, rfl, rfl, rfl,
        ⟨by decide, by decide, ⟨rfl, rfl⟩, ⟨rfl, rfl⟩, ⟨rfl, rfl⟩⟩, ⟨rfl, rfl⟩⟩
    · intro r hr
      simp only [mapper_demo, List.mem_singleton] at hr
      subst hr
      rfl

end ClipCap
